import Mathlib

/-!
Verification of the kafe fit-orchestration engine (`kafe/fit.py`).

This file gives a shallow embedding, over exact rational arithmetic, of the
code under scrutiny: the `chi2` objective, `round_to_significance`, the
parameter-lifecycle operations of the `Fit` class (`set_parameters`,
`fix_parameters`, `release_parameters`, `constrain_parameters`,
`_find_parameter`), the x-covariance projection
(`project_x_covariance_matrix`) and the bounded fixed-point iteration of
`do_fit`.  Machine floats are modelled by `ℚ`; `np.sqrt` is modelled by
`Rat.sqrt` (exact on the perfect squares used in concrete inputs); Python
exceptions are modelled by `Except String`.  The external Minuit minimizer is
kept opaque: calls into it are recorded in a trace (`MinuitOp`), and the
minimization steps of the `do_fit` loop are an abstract state-transformer
parameter.
-/

/-! ## Python-semantics helpers -/

/-- Python list index normalization: a negative index `i` addresses element
`len + i`.  (Callers only use it on indices that are in range, matching the
places where the Python code indexes with an already validated id.) -/
def pyIdx (len : ℕ) (i : ℤ) : ℕ :=
  (if i < 0 then i + len else i).toNat

/-- In-range test for Python list indexing: `l[i]` succeeds iff `-len ≤ i < len`. -/
def pyIdxOk (len : ℕ) (i : ℤ) : Prop :=
  -(len : ℤ) ≤ i ∧ i < len

instance (len : ℕ) (i : ℤ) : Decidable (pyIdxOk len i) := by
  unfold pyIdxOk; infer_instance

/-- Write `a` at Python index `i` (possibly negative) of `l`. -/
def pySet {α : Type} (l : List α) (i : ℤ) (a : α) : List α :=
  l.set (pyIdx l.length i) a

/-- Python-2 `round` to an integer: round half away from zero. -/
def pyRoundInt (q : ℚ) : ℤ :=
  if q < 0 then -⌊-q + 1/2⌋ else ⌊q + 1/2⌋

/-- Python-2 `round(x, n)`: round half away from zero at `n` decimal places
(`n` may be negative). -/
def pyRound (x : ℚ) (n : ℤ) : ℚ :=
  (pyRoundInt (x * 10 ^ n) : ℚ) / 10 ^ n

/-- Exact model of `int(floor(log(q)/log(10)))` for positive rational `q`. -/
def log10Floor (q : ℚ) : ℤ :=
  if 1 ≤ q then (Nat.log 10 ⌊q⌋.toNat : ℤ)
  else -(Nat.clog 10 ⌈1 / q⌉.toNat : ℤ)

/-- Minimum of a list, as Python's `min` on a nonempty list (0 on `[]`,
a case the code never hits). -/
def listMin : List ℚ → ℚ
  | [] => 0
  | a :: as => as.foldl min a

/-- Element-wise model of `np.allclose(old, new, atol=0, rtol=1e-4)`:
every entry satisfies `|old - new| ≤ 0 + 1e-4 * |new|`.  Matrices are
compared in any flattened form; shapes agree at every call site. -/
def allclose (old new : List ℚ) : Bool :=
  (old.zip new).all fun p => decide (|p.1 - p.2| ≤ 1 / 10000 * |p.2|)

/-! ## Parameter lifecycle state (`Fit` instance fields)

`FitState` collects the `Fit` attributes mutated by the parameter-lifecycle
methods: `current_parameter_values`, `current_parameter_errors`,
`_fixed_parameters`, `number_of_fixed_parameters`, the
`constrained_parameters` value/sigma arrays with `_constrained_parameters`
flags and `number_of_constrained_parameters`.  Calls into the opaque Minuit
minimizer are recorded in `trace`. -/

/-- A call made to the external minimizer. -/
inductive MinuitOp where
  | fixPar : ℤ → MinuitOp
  | releasePar : ℤ → MinuitOp
  deriving DecidableEq, Repr

/-- The mutable parameter-lifecycle state of a `Fit`. -/
structure FitState where
  nParams : ℕ
  names : List String
  values : List ℚ
  errors : List ℚ
  fixedFlags : List Bool
  nFixed : ℤ
  cvals : List ℚ
  cerrs : List ℚ
  constrainedFlags : List Bool
  nConstrained : ℤ
  trace : List MinuitOp
  deriving DecidableEq, Repr

/-- A parameter reference: Python callers pass either an integer id or a
name string to the lifecycle methods. -/
inductive ParamRef where
  | byId : ℤ → ParamRef
  | byName : String → ParamRef
  deriving DecidableEq, Repr

/-- Embedding of `Fit._find_parameter`.  An integer id is probed by indexing
`current_parameter_values`: in range (negative allowed) it is returned
unchanged; out of range the uncaught `IndexError` propagates.  A string
triggers a `TypeError`, caught and followed by a name lookup that yields
`none` when the name is unknown. -/
def find_parameter (s : FitState) : ParamRef → Except String (Option ℤ)
  | .byId i =>
      if pyIdxOk s.values.length i then .ok (some i) else .error "IndexError"
  | .byName name => .ok ((s.names.findIdx? (· == name)).map fun k => (k : ℤ))

/-- Embedding of `Fit.fix_parameters`: for each argument resolve the id
(unknown name: `ValueError`), tell the minimizer, increment
`number_of_fixed_parameters` unconditionally and raise the fixed flag. -/
def fix_parameters (s : FitState) : List ParamRef → Except String FitState
  | [] => .ok s
  | p :: ps => do
      match ← find_parameter s p with
      | none => .error "Cannot fix parameter. Not a valid ID or parameter name."
      | some par_id =>
          fix_parameters
            { s with
              trace := s.trace ++ [.fixPar par_id]
              nFixed := s.nFixed + 1
              fixedFlags := pySet s.fixedFlags par_id true } ps

/-- Named branch of `Fit.release_parameters`: per argument resolve the id,
tell the minimizer, decrement the fixed count unconditionally, clear the flag. -/
def release_parameters_named (s : FitState) : List ParamRef → Except String FitState
  | [] => .ok s
  | p :: ps => do
      match ← find_parameter s p with
      | none => .error "Cannot release parameter. Not a valid ID or parameter name."
      | some par_id =>
          release_parameters_named
            { s with
              trace := s.trace ++ [.releasePar par_id]
              nFixed := s.nFixed - 1
              fixedFlags := pySet s.fixedFlags par_id false } ps

/-- Embedding of `Fit.release_parameters`.  With no arguments the code only
loops `minimizer.release_parameter(par_id)` over all ids: the fixed flags and
`number_of_fixed_parameters` are not touched on that branch. -/
def release_parameters (s : FitState) (ps : List ParamRef) : Except String FitState :=
  if ps.isEmpty then
    .ok { s with trace := s.trace ++ (List.range s.nParams).map fun k => .releasePar (k : ℤ) }
  else
    release_parameters_named s ps

/-- Loop body of `Fit.constrain_parameters`, carrying the enumeration of the
value/sigma argument lists alongside the references. -/
def constrain_parameters_go (s : FitState) :
    List (ParamRef × ℚ × ℚ) → Except String FitState
  | [] => .ok s
  | (p, v, e) :: ps => do
      match ← find_parameter s p with
      | none => .error "Cannot constrain parameter. Not a valid ID or parameter name."
      | some par_id =>
          constrain_parameters_go
            { s with
              cvals := pySet s.cvals par_id v
              cerrs := pySet s.cerrs par_id e
              nConstrained := s.nConstrained + 1
              constrainedFlags := pySet s.constrainedFlags par_id true } ps

/-- Embedding of `Fit.constrain_parameters(parameters, parvals, parerrs)`:
record target/sigma per reference, incrementing
`number_of_constrained_parameters` once per processed argument. -/
def constrain_parameters (s : FitState) (parameters : List ParamRef)
    (parvals parerrs : List ℚ) : Except String FitState :=
  constrain_parameters_go s (parameters.zip (parvals.zip parerrs))

/-- Degrees-of-freedom expression of `Fit.print_fit_details`:
`dataset.get_size() - number_of_parameters + number_of_fixed_parameters
+ number_of_constrained_parameters`. -/
def ndf_of (datasetSize : ℤ) (s : FitState) : ℤ :=
  datasetSize - s.nParams + s.nFixed + s.nConstrained

/-! ## `Fit.set_parameters` -/

/-- Positional branch of `Fit.set_parameters` (one or two positional
arguments).  Returns the updated state and whether a warning was logged.
The second length guard in the code tests `len(par_values)` — already known
equal to the parameter count — rather than `len(par_errors)`, so a
mismatched error list is stored without complaint. -/
def set_parameters_positional (s : FitState) (par_values : List ℚ)
    (par_errors : Option (List ℚ)) (no_warning : Bool) :
    Except String (FitState × Bool) :=
  if par_values.length = s.nParams then
    let s1 := { s with values := par_values }
    match par_errors with
    | some errs =>
        if par_values.length = s1.nParams then .ok ({ s1 with errors := errs }, false)
        else .error "Cannot set parameter errors. Mismatched number of parameter errors."
    | none =>
        .ok ({ s1 with errors := par_values.map fun v => if v = 0 then 1/10 else v / 10 },
             !no_warning)
  else .error "Cannot set parameters. Mismatched number of parameters."

/-- A keyword argument of `set_parameters`: a bare value, or a
(value, error) pair. -/
def KwSpec : Type := ℚ ⊕ (ℚ × ℚ)

/-- Keyword branch of `Fit.set_parameters`.  Keyword names are strings, so
`_find_parameter` always takes its name-lookup path here.  A bare value `v`
stores the error `v * 0.1` (the `TypeError` fallback), warning unless
suppressed.  Returns the state and the number of warnings logged. -/
def set_parameters_keyword (s : FitState) :
    List (String × KwSpec) → Bool → Except String (FitState × ℕ)
  | [], _ => .ok (s, 0)
  | (name, spec) :: kws, no_warning => do
      match ← find_parameter s (.byName name) with
      | none => .error "Cannot set parameter. Not a valid ID or parameter name."
      | some par_id =>
          let vw : (ℚ × ℚ) × ℕ :=
            match spec with
            | .inl v => ((v, v * (1/10)), if no_warning then 0 else 1)
            | .inr ve => (ve, 0)
          let r ← set_parameters_keyword
            { s with
              values := pySet s.values par_id vw.1.1
              errors := pySet s.errors par_id vw.1.2 } kws no_warning
          .ok (r.1, vw.2 + r.2)

/-! ## The chi-squared objective (`chi2` in `fit.py`) -/

/-- Computable matrix inverse over `ℚ`, `det⁻¹ • adjugate`; it agrees with
Mathlib's `Matrix.inv` on every matrix and models `numpy.matrix.I` on the
invertible matrices the claims quantify over. -/
def matInv {m : ℕ} (A : Matrix (Fin m) (Fin m) ℚ) : Matrix (Fin m) (Fin m) ℚ :=
  A.det⁻¹ • A.adjugate

open Matrix in
/-- Embedding of the module-level `chi2` FCN: residual `r = y - f(x; p)`,
base value `rᵀ C⁻¹ r`, then for each entry of the constraint sigma list that
is nonzero (Python truthiness of `err`) the penalty `((p_i - c_i)/err_i)²`
is added.  `constrained_parameters` is `None` or the pair of the target and
sigma arrays. -/
def chi2 {n m : ℕ} (xdata ydata : Fin m → ℚ) (cov_mat : Matrix (Fin m) (Fin m) ℚ)
    (fit_function : ℚ → (Fin n → ℚ) → ℚ) (parameter_values : Fin n → ℚ)
    (constrained_parameters : Option ((Fin n → ℚ) × (Fin n → ℚ))) : ℚ :=
  let fdata : Fin m → ℚ := fun i => fit_function (xdata i) parameter_values
  let residual : Fin m → ℚ := fun i => ydata i - fdata i
  let chi2val := residual ⬝ᵥ (matInv cov_mat).mulVec residual
  match constrained_parameters with
  | none => chi2val
  | some cp =>
      chi2val + ∑ i : Fin n,
        if cp.2 i ≠ 0 then ((parameter_values i - cp.1 i) / cp.2 i) ^ 2 else 0

/-! ## `round_to_significance` -/

/-- Embedding of `round_to_significance(value, error, significance)`.
A zero error skips the rounding (`if error:`); a negative error makes
`log(error)` raise `ValueError: math domain error`; otherwise both value and
error are rounded at `-floor(log10(error)) + significance - 1` decimal
places. -/
def round_to_significance (value error : ℚ) (significance : ℕ) :
    Except String (ℚ × ℚ) :=
  if error = 0 then .ok (value, error)
  else if error < 0 then .error "math domain error"
  else
    let significant_digits : ℤ := -log10Floor error + significance - 1
    .ok (pyRound value significant_digits, pyRound error significant_digits)

/-! ## `project_x_covariance_matrix`

The matrices live as row lists (`List (List ℚ)`).  `derive_by_x` and
`outer_product` are imported by `fit.py` from `function_tools`, a module not
present in the sources. -/

/-- Diagonal of a square matrix given as a row list. -/
def matDiag (m : List (List ℚ)) : List ℚ :=
  (List.range m.length).map fun i => (m.getD i []).getD i 0

/-- Modelled from the spec: `derive_by_x(xs, step_sizes, values)` from the
missing `function_tools` module "returns df/dx at each sample", by numeric
finite differences with the per-sample step the caller supplies; modelled as
the symmetric difference quotient. -/
def derive_by_x (f : ℚ → ℚ) (xs steps : List ℚ) : List ℚ :=
  (xs.zip steps).map fun q => (f (q.1 + q.2) - f (q.1 - q.2)) / (2 * q.2)

/-- Modelled from the spec: `outer_product` from the missing
`function_tools` module, the matrix `v_i · v_j` used as
`C_x[i][j] · (df/dx)_i · (df/dx)_j` in the projection formula. -/
def outer_product (v : List ℚ) : List (List ℚ) :=
  v.map fun a => v.map fun b => a * b

/-- Element-wise product of two row-list matrices
(`np.asarray(...) * outer_prod`). -/
def matElemMul (A B : List (List ℚ)) : List (List ℚ) :=
  List.zipWith (List.zipWith (· * ·)) A B

/-- Element-wise sum of two row-list matrices. -/
def matElemAdd (A B : List (List ℚ)) : List (List ℚ) :=
  List.zipWith (List.zipWith (· + ·)) A B

/-- The per-point derivative steps of `project_x_covariance_matrix`:
`precision_list = 0.01 * np.sqrt(np.diag(current_cov_mat))`. -/
def precisionListOf (cov : List (List ℚ)) : List ℚ :=
  (matDiag cov).map fun c => 1/100 * Rat.sqrt c

/-- Embedding of `Fit.project_x_covariance_matrix`.  Inputs: the current fit
function at the current parameters (as a one-variable function), the x data,
the current working covariance matrix and the dataset's raw x and y
covariance matrices.  Output: whether the zero-step warning was logged, and
the new total covariance matrix `C_y + C_x ∘ outer(df/dx)`.  When the
minimum of `precision_list` is 0 every zero entry is replaced by `1e-7`. -/
def project_x_covariance_matrix (f : ℚ → ℚ) (xs : List ℚ)
    (current_cov covX covY : List (List ℚ)) : Bool × List (List ℚ) :=
  let precision_list := precisionListOf current_cov
  let warned := listMin precision_list = 0
  let precision_list' :=
    if warned then precision_list.map fun p => if p = 0 then 1/10^7 else p
    else precision_list
  let outer_prod := outer_product (derive_by_x f xs precision_list')
  (warned, matElemAdd covY (matElemMul covX outer_prod))

/-- The claim's reading of the projection, stated for comparison with the
code: df/dx at every data point is computed with the one finite-difference
step `0.01 · sqrt(min diagonal element of the current covariance)`, the step
replaced by `1e-7` when that minimum is 0. -/
def project_x_covariance_matrix_claimed (f : ℚ → ℚ) (xs : List ℚ)
    (current_cov covX covY : List (List ℚ)) : Bool × List (List ℚ) :=
  let step0 := 1/100 * Rat.sqrt (listMin (matDiag current_cov))
  let warned := step0 = 0
  let step := if warned then (1/10^7 : ℚ) else step0
  let outer_prod := outer_product (derive_by_x f xs (List.replicate xs.length step))
  (warned, matElemAdd covY (matElemMul covX outer_prod))

/-! ## The x-uncertainty iteration of `do_fit`

The loop state `σ` (parameter values, minimizer internals, working
covariance matrix) is abstract; `step iter` is one loop body prelude —
`project_x_covariance_matrix` followed by `call_minimizer` (with
`final_fit=False` exactly on `iter = 0`) — and `cov` reads the working
covariance matrix, flattened, out of the state.  The loop compares the
matrix before the body (`old_matrix`) to the matrix after it with
`np.allclose(old, new, atol=0, rtol=1e-4)`; it breaks on success and
otherwise increments `iter_nr`, bounded by `max_x_iterations`. -/

/-- `max_x_iterations = 10` in `do_fit`. -/
def max_x_iterations : ℕ := 10

/-- Embedding of the `while iter_nr < max_x_iterations` loop of `do_fit`. -/
def doFitXLoop {σ : Type} (step : ℕ → σ → σ) (cov : σ → List ℚ)
    (iter_nr : ℕ) (s : σ) : σ :=
  if iter_nr < max_x_iterations then
    let s' := step iter_nr s
    if allclose (cov s) (cov s') then s'
    else doFitXLoop step cov (iter_nr + 1) s'
  else s
termination_by max_x_iterations - iter_nr

/-- Number of executions of the loop body of `doFitXLoop` (the measurement
the iteration-cap claim is about). -/
def doFitXCount {σ : Type} (step : ℕ → σ → σ) (cov : σ → List ℚ)
    (iter_nr : ℕ) (s : σ) : ℕ :=
  if iter_nr < max_x_iterations then
    let s' := step iter_nr s
    if allclose (cov s) (cov s') then 1
    else doFitXCount step cov (iter_nr + 1) s' + 1
  else 0
termination_by max_x_iterations - iter_nr

/-- The state after `k` executions of the loop body, counting from a body
that runs with `iter_nr = i` first: `step i`, then `step (i+1)`, …  (The
`do_fit` loop starts at `i = 0`.) -/
def nthState {σ : Type} (step : ℕ → σ → σ) (i : ℕ) (s : σ) : ℕ → σ
  | 0 => s
  | k + 1 => step (i + k) (nthState step i s k)

/-- The effective per-point step list used by `project_x_covariance_matrix`
after the zero-substitution branch. -/
def plEff (cov : List (List ℚ)) : List ℚ :=
  if listMin (precisionListOf cov) = 0 then
    (precisionListOf cov).map fun p => if p = 0 then 1/10^7 else p
  else precisionListOf cov

/-- The finite-difference step at data point `k`:
`0.01 · sqrt(C[k][k])`, or `1e-7` when that is zero. -/
def stepAt (cov : List (List ℚ)) (k : ℕ) : ℚ :=
  if 1/100 * Rat.sqrt ((cov.getD k []).getD k 0) = 0 then 1/10^7
  else 1/100 * Rat.sqrt ((cov.getD k []).getD k 0)

/-- The df/dx value the projection uses at data point `k`. -/
def dfdxAt (f : ℚ → ℚ) (xs : List ℚ) (cov : List (List ℚ)) (k : ℕ) : ℚ :=
  (f (xs.getD k 0 + stepAt cov k) - f (xs.getD k 0 - stepAt cov k)) / (2 * stepAt cov k)

/-- A concrete two-parameter `Fit` state (as built for the linear fit
function of the module documentation), used for concrete evaluations. -/
def sampleState2 : FitState where
  nParams := 2
  names := ["slope", "y_intercept"]
  values := [1, 0]
  errors := [1/10, 1/10]
  fixedFlags := [false, false]
  nFixed := 0
  cvals := [0, 0]
  cerrs := [0, 0]
  constrainedFlags := [false, false]
  nConstrained := 0
  trace := []

/-! ## Helper lemmas -/

theorem matInv_eq_inv {m : ℕ} (A : Matrix (Fin m) (Fin m) ℚ) : matInv A = A⁻¹ := by
  rw [Matrix.inv_def, matInv, Ring.inverse_eq_inv]

theorem pyIdx_natCast (len j : ℕ) : pyIdx len (j : ℤ) = j := by
  unfold pyIdx
  rw [if_neg (by omega)]
  omega

theorem pyIdx_neg (len k : ℕ) (h1 : 1 ≤ k) (h2 : k ≤ len) :
    pyIdx len (-(k : ℤ)) = len - k := by
  unfold pyIdx
  rw [if_pos (by omega)]
  omega

theorem pyIdxOk_natCast (len j : ℕ) : pyIdxOk len (j : ℤ) ↔ j < len := by
  unfold pyIdxOk
  omega

theorem pyIdxOk_neg (len k : ℕ) (h1 : 1 ≤ k) (h2 : k ≤ len) :
    pyIdxOk len (-(k : ℤ)) := by
  unfold pyIdxOk
  omega

theorem find_parameter_natCast (s : FitState) (j : ℕ) (hj : j < s.values.length) :
    find_parameter s (.byId (j : ℤ)) = .ok (some (j : ℤ)) := by
  simp only [find_parameter]
  rw [if_pos ((pyIdxOk_natCast _ _).2 hj)]

theorem find_parameter_neg (s : FitState) (k : ℕ) (h1 : 1 ≤ k)
    (h2 : k ≤ s.values.length) :
    find_parameter s (.byId (-(k : ℤ))) = .ok (some (-(k : ℤ))) := by
  simp only [find_parameter]
  rw [if_pos (pyIdxOk_neg _ _ h1 h2)]

theorem fix_parameters_cons (s : FitState) (p : ParamRef) (ps : List ParamRef)
    (pid : ℤ) (h : find_parameter s p = .ok (some pid)) :
    fix_parameters s (p :: ps) =
      fix_parameters
        { s with
          trace := s.trace ++ [.fixPar pid]
          nFixed := s.nFixed + 1
          fixedFlags := pySet s.fixedFlags pid true } ps := by
  simp [fix_parameters, h, Bind.bind, Except.bind]

theorem release_parameters_named_cons (s : FitState) (p : ParamRef)
    (ps : List ParamRef) (pid : ℤ) (h : find_parameter s p = .ok (some pid)) :
    release_parameters_named s (p :: ps) =
      release_parameters_named
        { s with
          trace := s.trace ++ [.releasePar pid]
          nFixed := s.nFixed - 1
          fixedFlags := pySet s.fixedFlags pid false } ps := by
  simp [release_parameters_named, h, Bind.bind, Except.bind]

theorem constrain_parameters_go_cons (s : FitState) (p : ParamRef) (v e : ℚ)
    (ps : List (ParamRef × ℚ × ℚ)) (pid : ℤ)
    (h : find_parameter s p = .ok (some pid)) :
    constrain_parameters_go s ((p, v, e) :: ps) =
      constrain_parameters_go
        { s with
          cvals := pySet s.cvals pid v
          cerrs := pySet s.cerrs pid e
          nConstrained := s.nConstrained + 1
          constrainedFlags := pySet s.constrainedFlags pid true } ps := by
  simp [constrain_parameters_go, h, Bind.bind, Except.bind]

theorem set_getD_eq_self {α : Type} :
    ∀ (l : List α) (j : ℕ) (d a : α), j < l.length → l.getD j d = a → l.set j a = l
  | [], j, _, _, h, _ => by simp at h
  | b :: bs, 0, d, a, _, hg => by
      simp only [List.getD, List.get?_cons_zero, Option.getD_some] at hg
      simp [List.set, hg]
  | b :: bs, j + 1, d, a, h, hg => by
      simp only [List.set]
      rw [set_getD_eq_self bs j d a (by simpa using h) (by simpa [List.getD] using hg)]

theorem count_true_set :
    ∀ (l : List Bool) (j : ℕ), j < l.length → l.getD j false = false →
      (l.set j true).count true = l.count true + 1
  | [], j, h, _ => by simp at h
  | b :: bs, 0, _, hg => by
      simp only [List.getD, List.get?_cons_zero, Option.getD_some] at hg
      simp [List.set, hg, List.count_cons]
  | b :: bs, j + 1, h, hg => by
      simp only [List.set, List.count_cons]
      rw [count_true_set bs j (by simpa using h) (by simpa [List.getD] using hg)]
      omega

theorem foldl_min_le_init : ∀ (as : List ℚ) (a : ℚ), as.foldl min a ≤ a
  | [], a => le_refl a
  | b :: bs, a => le_trans (foldl_min_le_init bs (min a b)) (min_le_left a b)

theorem foldl_min_le_mem : ∀ (as : List ℚ) (a x : ℚ), x ∈ as → as.foldl min a ≤ x
  | b :: bs, a, x, h => by
      rcases List.mem_cons.1 h with rfl | h
      · exact le_trans (foldl_min_le_init bs (min a x)) (min_le_right a x)
      · exact foldl_min_le_mem bs (min a b) x h

theorem foldl_min_mem : ∀ (as : List ℚ) (a : ℚ), as.foldl min a ∈ a :: as := by
  intro as
  induction as with
  | nil => intro a; simp
  | cons b bs ih =>
      intro a
      have h := ih (min a b)
      simp only [List.foldl]
      rcases List.mem_cons.1 h with he | hm
      · rw [he]
        rcases min_choice a b with hab | hab <;> rw [hab]
        · exact List.mem_cons_self _ _
        · exact List.mem_cons_of_mem _ (List.mem_cons_self _ _)
      · exact List.mem_cons_of_mem _ (List.mem_cons_of_mem _ hm)

theorem listMin_mem : ∀ (l : List ℚ), l ≠ [] → listMin l ∈ l
  | [], h => absurd rfl h
  | _ :: as, _ => foldl_min_mem as _

theorem listMin_le_mem (l : List ℚ) (x : ℚ) (hx : x ∈ l) : listMin l ≤ x := by
  match l, hx with
  | a :: as, hx =>
      rcases List.mem_cons.1 hx with rfl | h
      · exact foldl_min_le_init as x
      · exact foldl_min_le_mem as a x h

theorem nthState_shift {σ : Type} (step : ℕ → σ → σ) (i : ℕ) (s : σ) :
    ∀ k, nthState step (i + 1) (step i s) k = nthState step i s (k + 1)
  | 0 => rfl
  | k + 1 => by
      show step (i + 1 + k) (nthState step (i + 1) (step i s) k) =
        step (i + (k + 1)) (nthState step i s (k + 1))
      rw [nthState_shift step i s k]
      congr 1
      omega

/-! ## Claims -/

/-- C5: calling `set_parameters` with two positional arguments whose error
list has the wrong length does NOT raise: the guard on the error branch
re-tests `len(par_values) == number_of_parameters` (already known to hold)
instead of `len(par_errors)`, so the mismatched error list is silently
stored.  Here a 2-parameter fit accepts a 1-element error list. -/
theorem set_parameters_mismatched_errors_accepted :
    ([(5 : ℚ)].length ≠ sampleState2.nParams) ∧
    set_parameters_positional sampleState2 [1, 2] (some [5]) false =
      .ok ({ sampleState2 with values := [1, 2], errors := [5] }, false) :=
  ⟨by decide, rfl⟩

/-- C9: `fix_parameters` and `constrain_parameters` increment
`number_of_fixed_parameters` resp. `number_of_constrained_parameters` once
per processed argument, with no check of the already-fixed/constrained
flags: passing the same parameter twice adds 2 to the counter while the
flag array gains at most one new `true`, so the counter exceeds the number
of distinct flagged parameters and the degrees-of-freedom expression of
`print_fit_details` grows by 2. -/
theorem counters_increment_unconditionally (s : FitState) (j : ℕ) (v e : ℚ)
    (size : ℤ) (hj : j < s.values.length) :
    (fix_parameters s [.byId (j : ℤ), .byId (j : ℤ)] =
      .ok { s with
            trace := s.trace ++ [.fixPar (j : ℤ), .fixPar (j : ℤ)]
            nFixed := s.nFixed + 2
            fixedFlags := s.fixedFlags.set j true }) ∧
    (constrain_parameters s [.byId (j : ℤ), .byId (j : ℤ)] [v, v] [e, e] =
      .ok { s with
            cvals := s.cvals.set j v
            cerrs := s.cerrs.set j e
            nConstrained := s.nConstrained + 2
            constrainedFlags := s.constrainedFlags.set j true }) ∧
    (j < s.fixedFlags.length → s.fixedFlags.getD j false = false →
      ((s.fixedFlags.set j true).count true : ℤ) + 1 = (s.fixedFlags.count true : ℤ) + 2) ∧
    ndf_of size { s with nFixed := s.nFixed + 2 } = ndf_of size s + 2 := by
  have hfind : find_parameter s (.byId (j : ℤ)) = .ok (some (j : ℤ)) :=
    find_parameter_natCast s j hj
  refine ⟨?_, ?_, ?_, ?_⟩
  · rw [fix_parameters_cons s _ _ _ hfind]
    rw [fix_parameters_cons _ _ _ (j : ℤ) (by simpa using hfind)]
    show Except.ok _ = _
    simp only [Except.ok.injEq]
    unfold pySet
    simp only [pyIdx_natCast, List.length_set]
    obtain ⟨np, nm, vals, errs, ff, nf, cv, ce, cf, nc, tr⟩ := s
    simp [List.set_set, List.append_assoc]
    omega
  · show constrain_parameters_go s
      [(ParamRef.byId (j : ℤ), v, e), (ParamRef.byId (j : ℤ), v, e)] = _
    rw [constrain_parameters_go_cons s _ _ _ _ _ hfind]
    rw [constrain_parameters_go_cons _ _ _ _ _ (j : ℤ) (by simpa using hfind)]
    show Except.ok _ = _
    simp only [Except.ok.injEq]
    unfold pySet
    simp only [pyIdx_natCast, List.length_set]
    obtain ⟨np, nm, vals, errs, ff, nf, cv, ce, cf, nc, tr⟩ := s
    simp [List.set_set]
    omega
  · intro hjf hgd
    rw [count_true_set s.fixedFlags j hjf hgd]
    push_cast
    ring
  · unfold ndf_of
    simp only
    ring

/-- C9 witness: the double fix/constrain of parameter 0 on a concrete
2-parameter state. -/
theorem counters_increment_unconditionally_witness :
    (fix_parameters sampleState2 [.byId 0, .byId 0] =
      .ok { sampleState2 with
            trace := [.fixPar 0, .fixPar 0]
            nFixed := 2
            fixedFlags := [true, false] }) ∧
    ((2 : ℤ) = 0 + 2 ∧ ([true, false].count true : ℤ) + 1 = ([false, false].count true : ℤ) + 2) := by
  have h := counters_increment_unconditionally sampleState2 0 5 1 12 (by decide)
  refine ⟨h.1, by decide, h.2.2.1 (by decide) (by decide)⟩

/-- Unfolding of the keyword branch of `set_parameters` on one bare value:
store the value and `value * 0.1` as its error, and count one warning unless
suppressed. -/
theorem set_parameters_keyword_single (s : FitState) (name : String) (v : ℚ)
    (noW : Bool) (j : ℕ)
    (hfind : s.names.findIdx? (· == name) = some j) :
    set_parameters_keyword s [(name, Sum.inl v)] noW =
      .ok ({ s with
             values := pySet s.values (j : ℤ) v
             errors := pySet s.errors (j : ℤ) (v * (1/10)) },
           if noW then 0 else 1) := by
  simp only [set_parameters_keyword, find_parameter, hfind, Option.map_some, Bind.bind,
    Except.bind]
  simp

/-- C10 (amended): `_find_parameter` accepts an in-range negative integer
`-k` (1 ≤ k ≤ n) and returns it unchanged, and `fix_parameters`,
`release_parameters` and `constrain_parameters` then operate on parameter
`n - k` of their arrays (Python negative indexing); the keyword path of
`set_parameters` is excluded, since keyword names are strings. -/
theorem negative_index_lookup_spec (s : FitState) (k : ℕ) (v e : ℚ)
    (h1 : 1 ≤ k) (hkv : k ≤ s.values.length)
    (hfl : s.fixedFlags.length = s.values.length)
    (hcv : s.cvals.length = s.values.length) (hce : s.cerrs.length = s.values.length)
    (hcf : s.constrainedFlags.length = s.values.length) :
    (find_parameter s (.byId (-(k : ℤ))) = .ok (some (-(k : ℤ)))) ∧
    (fix_parameters s [.byId (-(k : ℤ))] =
      .ok { s with
            trace := s.trace ++ [.fixPar (-(k : ℤ))]
            nFixed := s.nFixed + 1
            fixedFlags := s.fixedFlags.set (s.values.length - k) true }) ∧
    (release_parameters s [.byId (-(k : ℤ))] =
      .ok { s with
            trace := s.trace ++ [.releasePar (-(k : ℤ))]
            nFixed := s.nFixed - 1
            fixedFlags := s.fixedFlags.set (s.values.length - k) false }) ∧
    (constrain_parameters s [.byId (-(k : ℤ))] [v] [e] =
      .ok { s with
            cvals := s.cvals.set (s.values.length - k) v
            cerrs := s.cerrs.set (s.values.length - k) e
            nConstrained := s.nConstrained + 1
            constrainedFlags := s.constrainedFlags.set (s.values.length - k) true }) := by
  have hfind := find_parameter_neg s k h1 hkv
  refine ⟨hfind, ?_, ?_, ?_⟩
  · rw [fix_parameters_cons s _ _ _ hfind]
    show Except.ok _ = _
    simp only [Except.ok.injEq]
    unfold pySet
    rw [pyIdx_neg _ _ h1 (by omega), hfl]
  · unfold release_parameters
    rw [if_neg (by simp)]
    rw [release_parameters_named_cons s _ _ _ hfind]
    show Except.ok _ = _
    simp only [Except.ok.injEq]
    unfold pySet
    rw [pyIdx_neg _ _ h1 (by omega), hfl]
  · show constrain_parameters_go s [(ParamRef.byId (-(k : ℤ)), v, e)] = _
    rw [constrain_parameters_go_cons s _ _ _ _ _ hfind]
    show Except.ok _ = _
    simp only [Except.ok.injEq]
    unfold pySet
    rw [pyIdx_neg _ _ h1 (by omega), pyIdx_neg _ _ h1 (by omega),
      pyIdx_neg _ _ h1 (by omega), hcv, hce, hcf]

/-- C10 witness: index `-1` on the concrete 2-parameter state addresses
parameter 1. -/
theorem negative_index_lookup_spec_witness :
    find_parameter sampleState2 (.byId (-1)) = .ok (some (-1)) ∧
    fix_parameters sampleState2 [.byId (-1)] =
      .ok { sampleState2 with
            trace := [.fixPar (-1)]
            nFixed := 1
            fixedFlags := [false, true] } := by
  have h := negative_index_lookup_spec sampleState2 1 0 0 (by decide) (by decide)
    (by decide) (by decide) (by decide) (by decide)
  exact ⟨h.1, h.2.1⟩

/-- C10 counterexample: the keyword path of `set_parameters` receives name
strings only, so the closest possible call with a negative index — the
keyword string "-1" — raises the invalid-reference error rather than
resolving to the last parameter as the claim asserts. -/
theorem set_parameters_keyword_negative_index_rejected :
    set_parameters_keyword sampleState2 [("-1", Sum.inl 5)] false =
      .error "Cannot set parameter. Not a valid ID or parameter name." := rfl

/-- C7 counterexample: fix parameter 0, then call `release_parameters` with
no arguments: the minimizer is told to release both parameters, but the
fixed flag of parameter 0 stays raised and `number_of_fixed_parameters`
stays 1 — the pre-fix state (count 0, no flags) is not restored. -/
theorem release_all_keeps_counters :
    (fix_parameters sampleState2 [.byId 0] >>= fun s1 => release_parameters s1 []) =
      .ok { sampleState2 with
            trace := [.fixPar 0, .releasePar 0, .releasePar 1]
            nFixed := 1
            fixedFlags := [true, false] } ∧
    (1 : ℤ) ≠ 0 := ⟨rfl, by decide⟩

/-- C7 (amended): `release_parameters` with no arguments only instructs the
minimizer to release every parameter id, leaving the `Fit`'s fixed flags and
fixed count untouched; the named form is the inverse of `fix_parameters`
parameter by parameter: fixing a previously unfixed parameter and then
releasing it by name restores the state apart from the recorded minimizer
calls. -/
theorem release_parameters_spec (s : FitState) (j : ℕ)
    (hj : j < s.values.length) (hjf : j < s.fixedFlags.length)
    (hflag : s.fixedFlags.getD j false = false) :
    (release_parameters s [] =
      .ok { s with
            trace := s.trace ++ (List.range s.nParams).map fun k => .releasePar (k : ℤ) }) ∧
    ((fix_parameters s [.byId (j : ℤ)] >>= fun s1 => release_parameters s1 [.byId (j : ℤ)]) =
      .ok { s with trace := s.trace ++ [.fixPar (j : ℤ), .releasePar (j : ℤ)] }) := by
  constructor
  · rfl
  · have hfind := find_parameter_natCast s j hj
    have hfix : fix_parameters s [ParamRef.byId (j : ℤ)] =
        .ok { s with
              trace := s.trace ++ [.fixPar (j : ℤ)]
              nFixed := s.nFixed + 1
              fixedFlags := pySet s.fixedFlags (j : ℤ) true } := by
      rw [fix_parameters_cons s _ _ _ hfind]
      rfl
    rw [hfix]
    show release_parameters _ [ParamRef.byId (j : ℤ)] = _
    unfold release_parameters
    rw [if_neg (by simp)]
    rw [release_parameters_named_cons _ _ _ (j : ℤ)
      (find_parameter_natCast _ j (by simpa using hj))]
    show Except.ok _ = _
    simp only [Except.ok.injEq]
    unfold pySet
    simp only [pyIdx_natCast, List.length_set]
    obtain ⟨np, nm, vals, errs, ff, nf, cv, ce, cf, nc, tr⟩ := s
    simp only at hflag hjf ⊢
    rw [List.set_set, set_getD_eq_self ff j false false hjf hflag]
    simp [List.append_assoc]

/-- C7 witness: the amended statement at parameter 1 of the concrete state. -/
theorem release_parameters_spec_witness :
    release_parameters sampleState2 [] =
      .ok { sampleState2 with trace := [.releasePar 0, .releasePar 1] } ∧
    (fix_parameters sampleState2 [.byId 1] >>= fun s1 => release_parameters s1 [.byId 1]) =
      .ok { sampleState2 with trace := [.fixPar 1, .releasePar 1] } := by
  have h := release_parameters_spec sampleState2 1 (by decide) (by decide) (by decide)
  exact ⟨h.1, h.2⟩

/-- C6 counterexample: `set_parameters` in keyword form with the bare value
0 stores `0 * 0.1 = 0` as the parameter error — not the `0.1` the claim
requires for a zero value. -/
theorem keyword_zero_value_stores_zero_error :
    set_parameters_keyword sampleState2 [("y_intercept", Sum.inl 0)] false =
      .ok ({ sampleState2 with values := [1, 0], errors := [1/10, 0] }, 1) ∧
    (0 : ℚ) ≠ 1/10 := by
  constructor
  · rw [set_parameters_keyword_single sampleState2 "y_intercept" 0 false 1 (by rfl)]
    unfold pySet
    norm_num [sampleState2, pyIdx]
  · norm_num

/-- C6 (amended): with values given and errors omitted, the positional form
of `set_parameters` defaults each error to `value/10`, or to `0.1` when the
value is 0; the keyword form with a bare value `v` defaults its error to
`v * 0.1` — which is `0`, not `0.1`, when `v = 0`.  Both forms log a warning
unless `no_warning` is set. -/
theorem set_parameters_default_errors_spec (s : FitState) (vals : List ℚ)
    (noW : Bool) (name : String) (v : ℚ) (j : ℕ)
    (hlen : vals.length = s.nParams)
    (hfind : s.names.findIdx? (· == name) = some j) :
    (set_parameters_positional s vals none noW =
      .ok ({ s with
             values := vals
             errors := vals.map fun w => if w = 0 then 1/10 else w / 10 }, !noW)) ∧
    (set_parameters_keyword s [(name, Sum.inl v)] noW =
      .ok ({ s with
             values := pySet s.values (j : ℤ) v
             errors := pySet s.errors (j : ℤ) (v * (1/10)) },
           if noW then 0 else 1)) := by
  constructor
  · unfold set_parameters_positional
    rw [if_pos hlen]
  · exact set_parameters_keyword_single s name v noW j hfind

/-- C6 witness: positional defaults `[2, 0] ↦ [0.2, 0.1]` with a warning,
and the keyword default `3 ↦ 0.3`, on the concrete state. -/
theorem set_parameters_default_errors_spec_witness :
    set_parameters_positional sampleState2 [2, 0] none false =
      .ok ({ sampleState2 with values := [2, 0], errors := [2/10, 1/10] }, true) ∧
    set_parameters_keyword sampleState2 [("slope", Sum.inl 3)] false =
      .ok ({ sampleState2 with values := [3, 0], errors := [3/10, 1/10] }, 1) := by
  have h := set_parameters_default_errors_spec sampleState2 [2, 0] false "slope" 3 0
    (by decide) (by rfl)
  constructor
  · rw [h.1]
    norm_num
  · rw [h.2]
    unfold pySet
    norm_num [sampleState2, pyIdx]

open Matrix in
/-- C3: for an invertible covariance matrix, `chi2` returns `rᵀ C⁻¹ r` with
`r = y - f(x; p)`, plus the penalty `((p_i - target_i)/sigma_i)²` for each
parameter whose constraint sigma is nonzero; with a model matching `y`
exactly, identity covariance and no constraint it evaluates to 0. -/
theorem chi2_formula_spec {n m : ℕ} (xdata ydata : Fin m → ℚ)
    (cov_mat : Matrix (Fin m) (Fin m) ℚ) (f : ℚ → (Fin n → ℚ) → ℚ) (p : Fin n → ℚ)
    (cvals cerrs : Fin n → ℚ) (_hdet : cov_mat.det ≠ 0) :
    (chi2 xdata ydata cov_mat f p (some (cvals, cerrs)) =
      (fun i => ydata i - f (xdata i) p) ⬝ᵥ
          cov_mat⁻¹.mulVec (fun i => ydata i - f (xdata i) p) +
        ∑ i, if cerrs i ≠ 0 then ((p i - cvals i) / cerrs i) ^ 2 else 0) ∧
    (chi2 xdata ydata cov_mat f p none =
      (fun i => ydata i - f (xdata i) p) ⬝ᵥ
          cov_mat⁻¹.mulVec (fun i => ydata i - f (xdata i) p)) ∧
    ((∀ i, f (xdata i) p = ydata i) → cov_mat = 1 →
      chi2 xdata ydata cov_mat f p none = 0) := by
  have hinv := matInv_eq_inv cov_mat
  refine ⟨?_, ?_, ?_⟩
  · simp only [chi2, hinv]
  · simp only [chi2, hinv]
  · intro hf _
    have hres : (fun i => ydata i - f (xdata i) p) = fun _ : Fin m => (0 : ℚ) := by
      funext i
      rw [hf i]
      ring
    simp only [chi2, hres]
    simp [Matrix.dotProduct]

/-- C3 witness: the model `3·x` through the point `(2, 6)` with identity
covariance gives chi2 = 0. -/
theorem chi2_formula_spec_witness :
    chi2 (fun _ : Fin 1 => (2 : ℚ)) (fun _ => 6) (1 : Matrix (Fin 1) (Fin 1) ℚ)
      (fun x (q : Fin 1 → ℚ) => q 0 * x) (fun _ => 3) none = 0 := by
  have h := @chi2_formula_spec 1 1 (fun _ => (2 : ℚ)) (fun _ => 6)
    (1 : Matrix (Fin 1) (Fin 1) ℚ) (fun x (q : Fin 1 → ℚ) => q 0 * x) (fun _ => 3)
    (fun _ => 0) (fun _ => 0) (by simp)
  exact h.2.2 (fun i => by norm_num) rfl

/-- C4: the penalty sum of `chi2` skips every parameter whose constraint
sigma is 0 (`if(err)` in the code), so constraint arrays whose sigmas are
all 0 leave the objective exactly equal to the unconstrained evaluation,
for every parameter value. -/
theorem chi2_sigma_zero_spec {n m : ℕ} (xdata ydata : Fin m → ℚ)
    (cov_mat : Matrix (Fin m) (Fin m) ℚ) (f : ℚ → (Fin n → ℚ) → ℚ) (p : Fin n → ℚ)
    (t sg : Fin n → ℚ) :
    (chi2 xdata ydata cov_mat f p (some (t, sg)) =
      chi2 xdata ydata cov_mat f p none +
        ∑ i, if sg i ≠ 0 then ((p i - t i) / sg i) ^ 2 else 0) ∧
    ((∀ i, sg i = 0) →
      chi2 xdata ydata cov_mat f p (some (t, sg)) =
        chi2 xdata ydata cov_mat f p none) := by
  constructor
  · simp only [chi2]
  · intro h
    simp only [chi2]
    have hz : ∀ i : Fin n, (if sg i ≠ 0 then ((p i - t i) / sg i) ^ 2 else 0) = 0 := by
      intro i
      simp [h i]
    rw [Finset.sum_congr rfl fun i _ => hz i]
    simp

/-- C4 witness: a recorded constraint `5 ± 0` on the single parameter leaves
the objective equal to the unconstrained one. -/
theorem chi2_sigma_zero_spec_witness :
    chi2 (fun _ : Fin 1 => (1 : ℚ)) (fun _ => 2) (1 : Matrix (Fin 1) (Fin 1) ℚ)
      (fun x (q : Fin 1 → ℚ) => q 0 * x) (fun _ => 3) (some (fun _ => 5, fun _ => 0)) =
    chi2 (fun _ : Fin 1 => (1 : ℚ)) (fun _ => 2) (1 : Matrix (Fin 1) (Fin 1) ℚ)
      (fun x (q : Fin 1 → ℚ) => q 0 * x) (fun _ => 3) none := by
  have h := @chi2_sigma_zero_spec 1 1 (fun _ => (1 : ℚ)) (fun _ => 2)
    (1 : Matrix (Fin 1) (Fin 1) ℚ) (fun x (q : Fin 1 → ℚ) => q 0 * x) (fun _ => 3)
    (fun _ => 5) (fun _ => 0)
  exact h.2 fun i => rfl

/-- `log10Floor` brackets a positive rational between consecutive powers of
ten. -/
theorem log10Floor_bounds (q : ℚ) (hq : 0 < q) :
    (10 : ℚ) ^ log10Floor q ≤ q ∧ q < (10 : ℚ) ^ (log10Floor q + 1) := by
  unfold log10Floor
  by_cases h1 : 1 ≤ q
  · rw [if_pos h1]
    have hfl1 : 1 ≤ ⌊q⌋ := Int.le_floor.2 (by exact_mod_cast h1)
    have htn : ((⌊q⌋.toNat : ℤ) : ℚ) = ((⌊q⌋ : ℤ) : ℚ) := by
      rw [Int.toNat_of_nonneg (by omega)]
    have hmn1 : ⌊q⌋.toNat ≠ 0 := by omega
    constructor
    · rw [zpow_natCast]
      have hlog := @Nat.pow_log_le_self 10 ⌊q⌋.toNat hmn1
      have h2 : ((10 ^ Nat.log 10 ⌊q⌋.toNat : ℕ) : ℚ) ≤ (⌊q⌋.toNat : ℚ) := by
        exact_mod_cast hlog
      have h3 : ((⌊q⌋.toNat : ℕ) : ℚ) ≤ q := by
        have h4 : ((⌊q⌋ : ℤ) : ℚ) ≤ q := Int.floor_le q
        calc ((⌊q⌋.toNat : ℕ) : ℚ) = ((⌊q⌋.toNat : ℤ) : ℚ) := by push_cast; ring
          _ = ((⌊q⌋ : ℤ) : ℚ) := htn
          _ ≤ q := h4
      calc (10 : ℚ) ^ Nat.log 10 ⌊q⌋.toNat
          = ((10 ^ Nat.log 10 ⌊q⌋.toNat : ℕ) : ℚ) := by push_cast; ring
        _ ≤ q := le_trans h2 h3
    · have hlt := @Nat.lt_pow_succ_log_self 10 (by norm_num) ⌊q⌋.toNat
      have hql : q < ((⌊q⌋.toNat : ℕ) : ℚ) + 1 := by
        have h5 := Int.lt_floor_add_one q
        calc q < ((⌊q⌋ : ℤ) : ℚ) + 1 := h5
          _ = ((⌊q⌋.toNat : ℕ) : ℚ) + 1 := by rw [← htn]; push_cast; ring
      have h6 : ((⌊q⌋.toNat : ℕ) : ℚ) + 1 ≤ ((10 ^ (Nat.log 10 ⌊q⌋.toNat + 1) : ℕ) : ℚ) := by
        exact_mod_cast hlt
      calc q < ((10 ^ (Nat.log 10 ⌊q⌋.toNat + 1) : ℕ) : ℚ) := lt_of_lt_of_le hql h6
        _ = (10 : ℚ) ^ ((Nat.log 10 ⌊q⌋.toNat : ℤ) + 1) := by
            rw [show ((Nat.log 10 ⌊q⌋.toNat : ℤ) + 1) =
              ((Nat.log 10 ⌊q⌋.toNat + 1 : ℕ) : ℤ) by push_cast; ring, zpow_natCast]
            push_cast
            ring
  · rw [if_neg h1]
    push_neg at h1
    have hr1 : 1 < 1 / q := by
      rw [lt_div_iff₀ hq]
      linarith
    have hrpos : 0 < 1 / q := by positivity
    have hc1 : 1 < ⌈1 / q⌉ := by
      have := Int.le_ceil (1 / q)
      have h2 : (1 : ℚ) < (⌈1 / q⌉ : ℚ) := lt_of_lt_of_le hr1 this
      exact_mod_cast h2
    have hctn : ((⌈1 / q⌉.toNat : ℤ) : ℚ) = ((⌈1 / q⌉ : ℤ) : ℚ) := by
      rw [Int.toNat_of_nonneg (by omega)]
    have hc2 : 1 < ⌈1 / q⌉.toNat := by omega
    have hkpos : 0 < Nat.clog 10 ⌈1 / q⌉.toNat := Nat.clog_pos (by norm_num) hc2
    have hle := @Nat.le_pow_clog 10 (by norm_num) ⌈1 / q⌉.toNat
    have hgt := @Nat.pow_pred_clog_lt_self 10 (by norm_num) ⌈1 / q⌉.toNat hc2
    have hA : 1 / q ≤ (10 : ℚ) ^ (Nat.clog 10 ⌈1 / q⌉.toNat : ℤ) := by
      calc 1 / q ≤ ((⌈1 / q⌉ : ℤ) : ℚ) := Int.le_ceil _
        _ = ((⌈1 / q⌉.toNat : ℕ) : ℚ) := by rw [← hctn]; push_cast; ring
        _ ≤ ((10 ^ Nat.clog 10 ⌈1 / q⌉.toNat : ℕ) : ℚ) := by exact_mod_cast hle
        _ = (10 : ℚ) ^ (Nat.clog 10 ⌈1 / q⌉.toNat : ℤ) := by
            rw [zpow_natCast]; push_cast; ring
    have hB : (10 : ℚ) ^ ((Nat.clog 10 ⌈1 / q⌉.toNat : ℤ) - 1) < 1 / q := by
      have hzn : ((Nat.clog 10 ⌈1 / q⌉.toNat : ℤ) - 1) =
          ((Nat.clog 10 ⌈1 / q⌉.toNat - 1 : ℕ) : ℤ) := by omega
      have hnat : ((10 ^ (Nat.clog 10 ⌈1 / q⌉.toNat - 1) : ℕ) : ℤ) < ⌈1 / q⌉ := by
        calc ((10 ^ (Nat.clog 10 ⌈1 / q⌉.toNat - 1) : ℕ) : ℤ)
            < (⌈1 / q⌉.toNat : ℤ) := by exact_mod_cast hgt
          _ = ⌈1 / q⌉ := Int.toNat_of_nonneg (by omega)
      have := Int.lt_ceil.1 hnat
      calc (10 : ℚ) ^ ((Nat.clog 10 ⌈1 / q⌉.toNat : ℤ) - 1)
          = (((10 ^ (Nat.clog 10 ⌈1 / q⌉.toNat - 1) : ℕ) : ℤ) : ℚ) := by
            rw [hzn, zpow_natCast]
            push_cast
            ring
        _ < 1 / q := this
    have h10pos : (0 : ℚ) < (10 : ℚ) ^ (Nat.clog 10 ⌈1 / q⌉.toNat : ℤ) := by positivity
    constructor
    · rw [zpow_neg, ← one_div, div_le_iff₀ h10pos]
      have hmul := mul_le_mul_of_nonneg_right hA hq.le
      rw [one_div_mul_cancel hq.ne'] at hmul
      linarith
    · have hQpos : (0 : ℚ) < (10 : ℚ) ^ ((Nat.clog 10 ⌈1 / q⌉.toNat : ℤ) - 1) := by positivity
      rw [show -(Nat.clog 10 ⌈1 / q⌉.toNat : ℤ) + 1 =
        -((Nat.clog 10 ⌈1 / q⌉.toNat : ℤ) - 1) by ring, zpow_neg, ← one_div,
        lt_div_iff₀ hQpos]
      have hmul := mul_lt_mul_of_pos_right hB hq
      rw [one_div_mul_cancel hq.ne'] at hmul
      linarith

/-- C8: with a positive error, `round_to_significance` rounds both the error
and the value at the decimal place `-floor(log10(error)) + N - 1`, i.e. the
place of the N-th significant digit of the error — so the rounded error is
an integer mantissa in `[10^(N-1), 10^N]` over that place's power of ten and
the value is rounded to the same place; with error = 0 both inputs are
returned unchanged. -/
theorem round_to_significance_spec (value error : ℚ) (N : ℕ) (hN : 1 ≤ N) :
    (error = 0 → round_to_significance value error N = .ok (value, error)) ∧
    (0 < error →
      round_to_significance value error N =
        .ok (pyRound value (-log10Floor error + N - 1),
             pyRound error (-log10Floor error + N - 1)) ∧
      ∃ mant : ℤ,
        pyRound error (-log10Floor error + N - 1) =
          (mant : ℚ) / 10 ^ (-log10Floor error + N - 1) ∧
        (10 : ℤ) ^ (N - 1) ≤ mant ∧ mant ≤ (10 : ℤ) ^ N) := by
  constructor
  · intro h
    unfold round_to_significance
    rw [if_pos h]
  · intro h
    constructor
    · unfold round_to_significance
      rw [if_neg (by linarith), if_neg (by linarith)]
    · refine ⟨pyRoundInt (error * 10 ^ (-log10Floor error + N - 1)), rfl, ?_, ?_⟩
      all_goals
        have hb := log10Floor_bounds error h
        have hx1 : (10 : ℚ) ^ ((N : ℤ) - 1) ≤ error * 10 ^ (-log10Floor error + N - 1) := by
          have hm := mul_le_mul_of_nonneg_right hb.1
            (show (0:ℚ) ≤ 10 ^ (-log10Floor error + N - 1) by positivity)
          calc (10 : ℚ) ^ ((N : ℤ) - 1)
              = 10 ^ log10Floor error * 10 ^ (-log10Floor error + N - 1) := by
                rw [← zpow_add₀ (by norm_num : (10 : ℚ) ≠ 0)]
                congr 1
                ring
            _ ≤ error * 10 ^ (-log10Floor error + N - 1) := hm
        have hx2 : error * 10 ^ (-log10Floor error + N - 1) < (10 : ℚ) ^ (N : ℤ) := by
          have hm := mul_lt_mul_of_pos_right hb.2
            (show (0:ℚ) < 10 ^ (-log10Floor error + N - 1) by positivity)
          calc error * 10 ^ (-log10Floor error + N - 1)
              < 10 ^ (log10Floor error + 1) * 10 ^ (-log10Floor error + N - 1) := hm
            _ = (10 : ℚ) ^ (N : ℤ) := by
                rw [← zpow_add₀ (by norm_num : (10 : ℚ) ≠ 0)]
                congr 1
                ring
        have hx0 : (0 : ℚ) < error * 10 ^ (-log10Floor error + N - 1) := by positivity
        have hpr : pyRoundInt (error * 10 ^ (-log10Floor error + N - 1)) =
            ⌊error * 10 ^ (-log10Floor error + N - 1) + 1/2⌋ := by
          unfold pyRoundInt
          rw [if_neg (by linarith)]
      · rw [hpr, Int.le_floor]
        have hcast : (((10 : ℤ) ^ (N - 1) : ℤ) : ℚ) = (10 : ℚ) ^ ((N : ℤ) - 1) := by
          push_cast
          rw [← zpow_natCast]
          congr 1
          omega
        rw [hcast]
        linarith
      · rw [hpr]
        have hfl : ((⌊error * 10 ^ (-log10Floor error + N - 1) + 1/2⌋ : ℤ) : ℚ) ≤
            error * 10 ^ (-log10Floor error + N - 1) + 1/2 := Int.floor_le _
        have hlt : ((⌊error * 10 ^ (-log10Floor error + N - 1) + 1/2⌋ : ℤ) : ℚ) <
            (((10 : ℤ) ^ N : ℤ) : ℚ) + 1 := by
          have hcast : (((10 : ℤ) ^ N : ℤ) : ℚ) = (10 : ℚ) ^ (N : ℤ) := by
            push_cast
            rw [← zpow_natCast]
          rw [hcast]
          linarith
        have h2 : ⌊error * 10 ^ (-log10Floor error + N - 1) + 1/2⌋ < (10 : ℤ) ^ N + 1 := by
          exact_mod_cast hlt
        omega

/-- C8 witness: `round_to_significance(123.456, 56, 2)` keeps the error 56
(two significant digits) and rounds the value at the units place to 123. -/
theorem round_to_significance_spec_witness :
    round_to_significance (15432/125) 56 2 = .ok (123, 56) := by
  have hlog : log10Floor 56 = 1 := by
    unfold log10Floor
    rw [if_pos (by norm_num)]
    have h1 : ⌊(56 : ℚ)⌋ = 56 := by
      rw [show (56 : ℚ) = ((56 : ℤ) : ℚ) by norm_num]
      exact Int.floor_intCast 56
    rw [h1]
    norm_num
    exact Nat.log_eq_of_pow_le_of_lt_pow (by norm_num) (by norm_num)
  have h := ((round_to_significance_spec (15432/125) 56 2 (by norm_num)).2 (by norm_num)).1
  rw [h, hlog]
  rw [show (-(1 : ℤ) + ((2 : ℕ) : ℤ) - 1) = 0 by norm_num]
  unfold pyRound pyRoundInt
  simp only [zpow_zero, mul_one, div_one]
  rw [if_neg (by norm_num), if_neg (by norm_num)]
  have hf1 : ⌊(15432 : ℚ)/125 + 1/2⌋ = 123 := by
    rw [Int.floor_eq_iff]
    constructor <;> norm_num
  have hf2 : ⌊(56 : ℚ) + 1/2⌋ = 56 := by
    rw [Int.floor_eq_iff]
    constructor <;> norm_num
  rw [hf1, hf2]
  norm_num

theorem matDiag_length (m : List (List ℚ)) : (matDiag m).length = m.length := by
  simp [matDiag]

theorem matDiag_getD (m : List (List ℚ)) (k : ℕ) (hk : k < m.length) :
    (matDiag m).getD k 0 = (m.getD k []).getD k 0 := by
  unfold matDiag
  rw [List.getD_eq_getElem _ _ (by simpa using hk), List.getElem_map, List.getElem_range]

theorem precisionListOf_length (cov : List (List ℚ)) :
    (precisionListOf cov).length = cov.length := by
  simp [precisionListOf, matDiag_length]

theorem precisionListOf_getD (cov : List (List ℚ)) (k : ℕ) (hk : k < cov.length) :
    (precisionListOf cov).getD k 0 = 1/100 * Rat.sqrt ((cov.getD k []).getD k 0) := by
  unfold precisionListOf
  rw [List.getD_eq_getElem _ _ (by rw [List.length_map, matDiag_length]; exact hk),
    List.getElem_map, ← List.getD_eq_getElem _ 0 (by rw [matDiag_length]; exact hk),
    matDiag_getD _ _ hk]

theorem precisionListOf_nonneg (cov : List (List ℚ)) (x : ℚ)
    (hx : x ∈ precisionListOf cov) : 0 ≤ x := by
  unfold precisionListOf at hx
  obtain ⟨c, _, rfl⟩ := List.mem_map.1 hx
  exact mul_nonneg (by norm_num) (Rat.sqrt_nonneg c)

theorem plEff_length (cov : List (List ℚ)) : (plEff cov).length = cov.length := by
  unfold plEff
  split
  · rw [List.length_map, precisionListOf_length]
  · exact precisionListOf_length cov

theorem plEff_getD (cov : List (List ℚ)) (k : ℕ) (hk : k < cov.length) :
    (plEff cov).getD k 0 = stepAt cov k := by
  unfold plEff stepAt
  by_cases hmin : listMin (precisionListOf cov) = 0
  · rw [if_pos hmin]
    rw [List.getD_eq_getElem _ _ (by rw [List.length_map, precisionListOf_length]; exact hk),
      List.getElem_map, ← List.getD_eq_getElem _ 0 (by rw [precisionListOf_length]; exact hk),
      precisionListOf_getD _ _ hk]
  · rw [if_neg hmin, precisionListOf_getD _ _ hk]
    have hne : ¬(1/100 * Rat.sqrt ((cov.getD k []).getD k 0) = 0) := by
      intro h0
      apply hmin
      have hmem : (1/100 * Rat.sqrt ((cov.getD k []).getD k 0)) ∈ precisionListOf cov := by
        rw [← precisionListOf_getD _ _ hk,
          List.getD_eq_getElem _ _ (by rw [precisionListOf_length]; exact hk)]
        exact List.getElem_mem _
      have hle := listMin_le_mem _ _ hmem
      rw [h0] at hle
      have hne2 : precisionListOf cov ≠ [] := List.ne_nil_of_mem hmem
      have h0le := precisionListOf_nonneg cov _ (listMin_mem _ hne2)
      linarith
    rw [if_neg hne]

theorem derive_by_x_length (f : ℚ → ℚ) (xs steps : List ℚ) :
    (derive_by_x f xs steps).length = min xs.length steps.length := by
  simp [derive_by_x]

theorem derive_by_x_getD (f : ℚ → ℚ) (xs : List ℚ) (cov : List (List ℚ)) (k : ℕ)
    (hxs : xs.length = cov.length) (hk : k < cov.length) :
    (derive_by_x f xs (plEff cov)).getD k 0 = dfdxAt f xs cov k := by
  unfold derive_by_x dfdxAt
  have hxk : k < xs.length := by omega
  have hpk : k < (plEff cov).length := by rw [plEff_length]; exact hk
  have hzl : k < (xs.zip (plEff cov)).length := by
    rw [List.length_zip]
    omega
  rw [List.getD_eq_getElem _ _ (by simpa using hzl), List.getElem_map, List.getElem_zip]
  rw [← List.getD_eq_getElem xs 0 hxk, ← List.getD_eq_getElem (plEff cov) 0 hpk,
    plEff_getD _ _ hk]

theorem outer_product_row_length (v : List ℚ) (i : ℕ) (hi : i < v.length) :
    ((outer_product v).getD i []).length = v.length := by
  unfold outer_product
  rw [List.getD_eq_getElem _ _ (by simpa using hi), List.getElem_map, List.length_map]

theorem outer_product_getD (v : List ℚ) (i j : ℕ) (hi : i < v.length) (hj : j < v.length) :
    ((outer_product v).getD i []).getD j 0 = v.getD i 0 * v.getD j 0 := by
  have h1 : (outer_product v).getD i [] = v.map fun b => v.getD i 0 * b := by
    unfold outer_product
    rw [List.getD_eq_getElem _ _ (by simpa using hi), List.getElem_map,
      ← List.getD_eq_getElem v 0 hi]
  rw [h1, List.getD_eq_getElem _ _ (by simpa using hj), List.getElem_map,
    ← List.getD_eq_getElem v 0 hj]

theorem zipWith2_row_length (F : ℚ → ℚ → ℚ) (A B : List (List ℚ)) (i : ℕ)
    (hiA : i < A.length) (hiB : i < B.length) :
    ((List.zipWith (List.zipWith F) A B).getD i []).length =
      min (A.getD i []).length (B.getD i []).length := by
  have hiz : i < (List.zipWith (List.zipWith F) A B).length := by
    rw [List.length_zipWith]
    omega
  rw [List.getD_eq_getElem _ _ hiz, List.getElem_zipWith, List.length_zipWith,
    List.getD_eq_getElem A [] hiA, List.getD_eq_getElem B [] hiB]

theorem zipWith2_getD (F : ℚ → ℚ → ℚ) (A B : List (List ℚ)) (i j : ℕ)
    (hiA : i < A.length) (hiB : i < B.length)
    (hjA : j < (A.getD i []).length) (hjB : j < (B.getD i []).length) :
    ((List.zipWith (List.zipWith F) A B).getD i []).getD j 0 =
      F ((A.getD i []).getD j 0) ((B.getD i []).getD j 0) := by
  have hiz : i < (List.zipWith (List.zipWith F) A B).length := by
    rw [List.length_zipWith]
    omega
  have hAi : A.getD i [] = A[i] := List.getD_eq_getElem A [] hiA
  have hBi : B.getD i [] = B[i] := List.getD_eq_getElem B [] hiB
  have hjA2 : j < (A[i]).length := by rw [← hAi]; exact hjA
  have hjB2 : j < (B[i]).length := by rw [← hBi]; exact hjB
  have hjz : j < (List.zipWith F A[i] B[i]).length := by
    rw [List.length_zipWith]
    omega
  rw [List.getD_eq_getElem _ _ hiz, List.getElem_zipWith,
    List.getD_eq_getElem _ _ hjz, List.getElem_zipWith, hAi, hBi,
    List.getD_eq_getElem _ _ hjA2, List.getD_eq_getElem _ _ hjB2]

/-- The warning flag of `project_x_covariance_matrix` is set exactly when
some entry of the raw step list (equivalently, of the covariance diagonal)
vanishes. -/
theorem project_x_cov_warned (f : ℚ → ℚ) (xs : List ℚ) (cov covX covY : List (List ℚ))
    (hne : precisionListOf cov ≠ []) :
    (project_x_covariance_matrix f xs cov covX covY).1 = true ↔
      ∃ p ∈ precisionListOf cov, p = 0 := by
  show decide (listMin (precisionListOf cov) = 0) = true ↔ _
  rw [decide_eq_true_eq]
  constructor
  · intro hmin
    exact ⟨listMin _, listMin_mem _ hne, hmin⟩
  · rintro ⟨p, hp, rfl⟩
    have h1 := listMin_le_mem _ _ hp
    have h2 := precisionListOf_nonneg cov _ (listMin_mem _ hne)
    linarith

/-- Entry formula of the projected total covariance:
`C_y[i][j] + C_x[i][j] · (df/dx)_i · (df/dx)_j` with the per-point steps of
`dfdxAt`. -/
theorem project_x_cov_entry (f : ℚ → ℚ) (xs : List ℚ) (cov covX covY : List (List ℚ))
    (n : ℕ) (hxs : xs.length = n) (hcov : cov.length = n)
    (hX : covX.length = n) (hY : covY.length = n)
    (hXr : ∀ r ∈ covX, r.length = n) (hYr : ∀ r ∈ covY, r.length = n)
    (i j : ℕ) (hi : i < n) (hj : j < n) :
    ((project_x_covariance_matrix f xs cov covX covY).2.getD i []).getD j 0 =
      (covY.getD i []).getD j 0 +
        (covX.getD i []).getD j 0 * dfdxAt f xs cov i * dfdxAt f xs cov j := by
  show ((matElemAdd covY (matElemMul covX (outer_product
      (derive_by_x f xs (plEff cov))))).getD i []).getD j 0 = _
  have hdl : (derive_by_x f xs (plEff cov)).length = n := by
    rw [derive_by_x_length, hxs, plEff_length, hcov]
    simp
  have hiX : i < covX.length := by omega
  have hiY : i < covY.length := by omega
  have hXi : (covX.getD i []).length = n := by
    rw [List.getD_eq_getElem covX [] hiX]
    exact hXr _ (List.getElem_mem _)
  have hYi : (covY.getD i []).length = n := by
    rw [List.getD_eq_getElem covY [] hiY]
    exact hYr _ (List.getElem_mem _)
  have hopl : (outer_product (derive_by_x f xs (plEff cov))).length = n := by
    unfold outer_product
    rw [List.length_map, hdl]
  have hopr : ((outer_product (derive_by_x f xs (plEff cov))).getD i []).length = n := by
    rw [outer_product_row_length _ _ (by omega), hdl]
  have hM1l : (matElemMul covX (outer_product (derive_by_x f xs (plEff cov)))).length = n := by
    unfold matElemMul
    rw [List.length_zipWith, hX, hopl]
    simp
  have hM1r : ((matElemMul covX (outer_product
      (derive_by_x f xs (plEff cov)))).getD i []).length = n := by
    unfold matElemMul
    rw [zipWith2_row_length _ _ _ _ (by omega) (by omega), hXi, hopr]
    simp
  unfold matElemAdd
  rw [zipWith2_getD (· + ·) covY (matElemMul covX (outer_product
    (derive_by_x f xs (plEff cov)))) i j (by omega) (by omega) (by omega) (by omega)]
  unfold matElemMul
  rw [zipWith2_getD (· * ·) covX (outer_product
    (derive_by_x f xs (plEff cov))) i j (by omega) (by omega) (by omega) (by omega)]
  rw [outer_product_getD _ _ _ (by omega) (by omega)]
  rw [derive_by_x_getD f xs cov i (by omega) (by omega),
    derive_by_x_getD f xs cov j (by omega) (by omega)]
  ring

/-- C2 (amended): `project_x_covariance_matrix` computes df/dx at data point
`k` with the per-point finite-difference step `0.01·sqrt(C[k][k])` taken
from that point's own diagonal element of the current covariance (not one
step from the minimum diagonal element); a zero step is replaced by `1e-7`,
with the warning logged exactly when some step vanishes; the resulting
matrix is `C_total[i][j] = C_y[i][j] + C_x[i][j]·(df/dx)_i·(df/dx)_j` from
the dataset's raw x- and y-covariance matrices. -/
theorem project_x_cov_spec (f : ℚ → ℚ) (xs : List ℚ) (cov covX covY : List (List ℚ))
    (n : ℕ) (hn : 0 < n) (hxs : xs.length = n) (hcov : cov.length = n)
    (hX : covX.length = n) (hY : covY.length = n)
    (hXr : ∀ r ∈ covX, r.length = n) (hYr : ∀ r ∈ covY, r.length = n)
    (i j : ℕ) (hi : i < n) (hj : j < n) :
    ((project_x_covariance_matrix f xs cov covX covY).1 = true ↔
      ∃ p ∈ precisionListOf cov, p = 0) ∧
    (((project_x_covariance_matrix f xs cov covX covY).2.getD i []).getD j 0 =
      (covY.getD i []).getD j 0 +
        (covX.getD i []).getD j 0 * dfdxAt f xs cov i * dfdxAt f xs cov j) := by
  constructor
  · apply project_x_cov_warned
    intro hc
    have hl := precisionListOf_length cov
    rw [hc] at hl
    simp at hl
    omega
  · exact project_x_cov_entry f xs cov covX covY n hxs hcov hX hY hXr hYr i j hi hj

/-- C2 counterexample: on the covariance `diag(1, 4)` with data `x = [1, 2]`
and the cubic model, the code's per-point steps `[0.01, 0.02]` give a
different projected matrix than the claim's single step
`0.01·sqrt(min diag) = 0.01`: the (1,1) entries are `(12 + 1/2500)²` versus
`(12 + 1/10000)²`. -/
theorem project_x_cov_single_step_counterexample :
    project_x_covariance_matrix (fun x => x^3) [1, 2] [[1, 0], [0, 4]] [[1, 0], [0, 1]]
        [[0, 0], [0, 0]] ≠
      project_x_covariance_matrix_claimed (fun x => x^3) [1, 2] [[1, 0], [0, 4]]
        [[1, 0], [0, 1]] [[0, 0], [0, 0]] := by
  intro heq
  have hs1 : Rat.sqrt 1 = 1 := by norm_num [Rat.sqrt]
  have hs4 : Rat.sqrt 4 = 2 := by norm_num [Rat.sqrt]
  have h := congrArg (fun r => (r.2.getD 1 []).getD 1 0) heq
  simp only at h
  have hD1 : dfdxAt (fun x => x^3) [1, 2] [[1, 0], [0, 4]] 1 = 30001/2500 := by
    unfold dfdxAt stepAt
    rw [show ([[1, 0], [0, 4]].getD 1 []).getD 1 0 = (4 : ℚ) from rfl,
      show ([1, 2] : List ℚ).getD 1 0 = (2 : ℚ) from rfl, hs4]
    norm_num
  have hL : ((project_x_covariance_matrix (fun x => x^3) [1, 2] [[1, 0], [0, 4]]
      [[1, 0], [0, 1]] [[0, 0], [0, 0]]).2.getD 1 []).getD 1 0 =
      30001/2500 * (30001/2500) := by
    rw [project_x_cov_entry (fun x => x^3) [1, 2] [[1, 0], [0, 4]] [[1, 0], [0, 1]]
      [[0, 0], [0, 0]] 2 (by decide) (by decide) (by decide) (by decide) (by decide)
      (by decide) 1 1 (by norm_num) (by norm_num), hD1]
    rw [show ([[0, 0], [0, 0]].getD 1 []).getD 1 0 = (0 : ℚ) from rfl,
      show ([[1, 0], [0, 1]].getD 1 []).getD 1 0 = (1 : ℚ) from rfl]
    norm_num
  have hmd : matDiag [[1, 0], [0, 4]] = [1, 4] := by decide
  have hlm : listMin [(1 : ℚ), 4] = 1 := by
    norm_num [listMin, min_def]
  have hR : ((project_x_covariance_matrix_claimed (fun x => x^3) [1, 2] [[1, 0], [0, 4]]
      [[1, 0], [0, 1]] [[0, 0], [0, 0]]).2.getD 1 []).getD 1 0 =
      120001/10000 * (120001/10000) := by
    unfold project_x_covariance_matrix_claimed
    rw [hmd, hlm, hs1]
    norm_num [derive_by_x, outer_product, matElemMul, matElemAdd, List.replicate,
      List.zip_cons_cons, List.zipWith_cons_cons, List.getD_cons_succ, List.getD_cons_zero]
  rw [hL, hR] at h
  norm_num at h

/-- C2 witness: the per-point formula evaluated at the counterexample input,
point (1,1): step `0.01·sqrt(4) = 0.02` gives the projected entry
`(12 + 1/2500)²`. -/
theorem project_x_cov_spec_witness :
    ((project_x_covariance_matrix (fun x => x^3) [1, 2] [[1, 0], [0, 4]] [[1, 0], [0, 1]]
        [[0, 0], [0, 0]]).2.getD 1 []).getD 1 0 = 30001/2500 * (30001/2500) := by
  have hs4 : Rat.sqrt 4 = 2 := by norm_num [Rat.sqrt]
  have h := project_x_cov_spec (fun x => x^3) [1, 2] [[1, 0], [0, 4]] [[1, 0], [0, 1]]
    [[0, 0], [0, 0]] 2 (by norm_num) (by decide) (by decide) (by decide) (by decide)
    (by decide) (by decide) 1 1 (by norm_num) (by norm_num)
  rw [h.2]
  have hD1 : dfdxAt (fun x => x^3) [1, 2] [[1, 0], [0, 4]] 1 = 30001/2500 := by
    unfold dfdxAt stepAt
    rw [show ([[1, 0], [0, 4]].getD 1 []).getD 1 0 = (4 : ℚ) from rfl,
      show ([1, 2] : List ℚ).getD 1 0 = (2 : ℚ) from rfl, hs4]
    norm_num
  rw [hD1, show ([[0, 0], [0, 0]].getD 1 []).getD 1 0 = (0 : ℚ) from rfl,
    show ([[1, 0], [0, 1]].getD 1 []).getD 1 0 = (1 : ℚ) from rfl]
  norm_num

/-- One-step unfolding of `doFitXLoop`. -/
theorem doFitXLoop_eq {σ : Type} (step : ℕ → σ → σ) (cov : σ → List ℚ)
    (iter : ℕ) (s : σ) :
    doFitXLoop step cov iter s =
      if iter < max_x_iterations then
        (if allclose (cov s) (cov (step iter s)) then step iter s
         else doFitXLoop step cov (iter + 1) (step iter s))
      else s := by
  conv_lhs => unfold doFitXLoop

/-- One-step unfolding of `doFitXCount`. -/
theorem doFitXCount_eq {σ : Type} (step : ℕ → σ → σ) (cov : σ → List ℚ)
    (iter : ℕ) (s : σ) :
    doFitXCount step cov iter s =
      if iter < max_x_iterations then
        (if allclose (cov s) (cov (step iter s)) then 1
         else doFitXCount step cov (iter + 1) (step iter s) + 1)
      else 0 := by
  conv_lhs => unfold doFitXCount

/-- The loop body cannot run more often than the remaining iteration
budget. -/
theorem doFitXCount_le {σ : Type} (step : ℕ → σ → σ) (cov : σ → List ℚ) :
    ∀ r iter s, max_x_iterations - iter ≤ r → doFitXCount step cov iter s ≤ r := by
  intro r
  induction r with
  | zero =>
      intro iter s h
      rw [doFitXCount_eq, if_neg (by unfold max_x_iterations at *; omega)]
  | succ r ih =>
      intro iter s h
      rw [doFitXCount_eq]
      by_cases h1 : iter < max_x_iterations
      · rw [if_pos h1]
        by_cases h2 : allclose (cov s) (cov (step iter s)) = true
        · rw [if_pos h2]
          omega
        · rw [if_neg h2]
          have := ih (iter + 1) (step iter s) (by omega)
          omega
      · rw [if_neg h1]
        omega

/-- Full characterization of the loop from any start index: it returns the
state of the first convergent body execution, or the state after the whole
remaining budget when no comparison succeeds. -/
theorem doFitXLoop_char {σ : Type} (step : ℕ → σ → σ) (cov : σ → List ℚ) :
    ∀ r iter s, iter + r = max_x_iterations →
      ((∀ k, k < r →
        (∀ l, l < k → allclose (cov (nthState step iter s l))
          (cov (nthState step iter s (l + 1))) = false) →
        allclose (cov (nthState step iter s k)) (cov (nthState step iter s (k + 1))) = true →
        doFitXLoop step cov iter s = nthState step iter s (k + 1) ∧
        doFitXCount step cov iter s = k + 1) ∧
      ((∀ k, k < r → allclose (cov (nthState step iter s k))
          (cov (nthState step iter s (k + 1))) = false) →
        doFitXLoop step cov iter s = nthState step iter s r ∧
        doFitXCount step cov iter s = r)) := by
  intro r
  induction r with
  | zero =>
      intro iter s hsum
      have hnot : ¬iter < max_x_iterations := by omega
      constructor
      · intro k hk
        exact absurd hk (by omega)
      · intro _
        have h1 : doFitXLoop step cov iter s = s := by
          rw [doFitXLoop_eq, if_neg hnot]
        have h2 : doFitXCount step cov iter s = 0 := by
          rw [doFitXCount_eq, if_neg hnot]
        exact ⟨h1, h2⟩
  | succ r ih =>
      intro iter s hsum
      have hlt : iter < max_x_iterations := by omega
      by_cases hconv : allclose (cov s) (cov (step iter s)) = true
      · have hloop : doFitXLoop step cov iter s = step iter s := by
          rw [doFitXLoop_eq, if_pos hlt, if_pos hconv]
        have hcount : doFitXCount step cov iter s = 1 := by
          rw [doFitXCount_eq, if_pos hlt, if_pos hconv]
        constructor
        · intro k hk hprev hconvk
          rcases Nat.eq_zero_or_pos k with rfl | hkpos
          · exact ⟨by rw [hloop]; rfl, by rw [hcount]⟩
          · exfalso
            have hzero := hprev 0 hkpos
            rw [show nthState step iter s 0 = s from rfl,
              show nthState step iter s 1 = step iter s from rfl] at hzero
            rw [hzero] at hconv
            simp at hconv
        · intro hall
          exfalso
          have hzero := hall 0 (by omega)
          rw [show nthState step iter s 0 = s from rfl,
            show nthState step iter s 1 = step iter s from rfl] at hzero
          rw [hzero] at hconv
          simp at hconv
      · have hconvf : allclose (cov s) (cov (step iter s)) = false := by
          cases hcb : allclose (cov s) (cov (step iter s)) with
          | true => exact absurd hcb hconv
          | false => rfl
        have hloop : doFitXLoop step cov iter s =
            doFitXLoop step cov (iter + 1) (step iter s) := by
          rw [doFitXLoop_eq, if_pos hlt, if_neg (by simp [hconvf])]
        have hcount : doFitXCount step cov iter s =
            doFitXCount step cov (iter + 1) (step iter s) + 1 := by
          rw [doFitXCount_eq, if_pos hlt, if_neg (by simp [hconvf])]
        obtain ⟨iha, ihb⟩ := ih (iter + 1) (step iter s) (by omega)
        constructor
        · intro k hk hprev hconvk
          rcases Nat.eq_zero_or_pos k with rfl | hkpos
          · exfalso
            rw [show nthState step iter s 0 = s from rfl,
              show nthState step iter s 1 = step iter s from rfl] at hconvk
            rw [hconvk] at hconvf
            simp at hconvf
          · obtain ⟨k', rfl⟩ : ∃ k', k = k' + 1 := ⟨k - 1, by omega⟩
            have hprev' : ∀ l, l < k' →
                allclose (cov (nthState step (iter + 1) (step iter s) l))
                  (cov (nthState step (iter + 1) (step iter s) (l + 1))) = false := by
              intro l hl
              rw [nthState_shift, nthState_shift]
              exact hprev (l + 1) (by omega)
            have hconvk' : allclose (cov (nthState step (iter + 1) (step iter s) k'))
                (cov (nthState step (iter + 1) (step iter s) (k' + 1))) = true := by
              rw [nthState_shift, nthState_shift]
              exact hconvk
            obtain ⟨ha1, ha2⟩ := iha k' (by omega) hprev' hconvk'
            constructor
            · rw [hloop, ha1, nthState_shift]
            · rw [hcount, ha2]
        · intro hall
          have hall' : ∀ k, k < r →
              allclose (cov (nthState step (iter + 1) (step iter s) k))
                (cov (nthState step (iter + 1) (step iter s) (k + 1))) = false := by
            intro k hk
            rw [nthState_shift, nthState_shift]
            exact hall (k + 1) (by omega)
          obtain ⟨hb1, hb2⟩ := ihb hall'
          constructor
          · rw [hloop, hb1, nthState_shift]
          · rw [hcount, hb2]

/-- C1: the x-projection loop of `do_fit` executes its body at most 10
times; it stops early exactly at the first body execution after which the
newly projected covariance matrix matches the snapshot from the start of
that execution under `np.allclose(old, new, atol=0, rtol=1e-4)`; and when
no execution converges it simply returns the state after the 10th body
execution — the loop is a total function, no error is signalled at the
cap. -/
theorem do_fit_x_loop_spec {σ : Type} (step : ℕ → σ → σ) (cov : σ → List ℚ) (s : σ) :
    (doFitXCount step cov 0 s ≤ 10) ∧
    (∀ k, k < 10 →
      (∀ l, l < k → allclose (cov (nthState step 0 s l))
        (cov (nthState step 0 s (l + 1))) = false) →
      allclose (cov (nthState step 0 s k)) (cov (nthState step 0 s (k + 1))) = true →
      doFitXLoop step cov 0 s = nthState step 0 s (k + 1) ∧
      doFitXCount step cov 0 s = k + 1) ∧
    ((∀ k, k < 10 → allclose (cov (nthState step 0 s k))
        (cov (nthState step 0 s (k + 1))) = false) →
      doFitXLoop step cov 0 s = nthState step 0 s 10 ∧
      doFitXCount step cov 0 s = 10) := by
  have hchar := doFitXLoop_char step cov 10 0 s (by rfl)
  exact ⟨doFitXCount_le step cov 10 0 s (by norm_num [max_x_iterations]),
    hchar.1, hchar.2⟩

/-- C1 witness: a state transformer whose covariance entry grows by 1 each
body execution never satisfies the tolerance check within the budget, so
the loop runs exactly 10 body executions and accepts the final state. -/
theorem do_fit_x_loop_spec_witness :
    doFitXLoop (fun _ n => n + 1) (fun n : ℕ => [(n : ℚ)]) 0 0 = 10 ∧
    doFitXCount (fun _ n => n + 1) (fun n : ℕ => [(n : ℚ)]) 0 0 = 10 := by
  have hn : ∀ k, nthState (fun _ n => n + 1) 0 0 k = k := by
    intro k
    induction k with
    | zero => rfl
    | succ k ih =>
        show nthState (fun _ n => n + 1) 0 0 k + 1 = k + 1
        rw [ih]
  have hall : ∀ k, k < 10 →
      allclose ((fun n : ℕ => [(n : ℚ)]) (nthState (fun _ n => n + 1) 0 0 k))
        ((fun n : ℕ => [(n : ℚ)]) (nthState (fun _ n => n + 1) 0 0 (k + 1))) = false := by
    intro k hk
    rw [hn k, hn (k + 1)]
    show allclose [(k : ℚ)] [((k + 1 : ℕ) : ℚ)] = false
    simp only [allclose, List.zip_cons_cons, List.zip_nil_right, List.all_cons,
      List.all_nil, Bool.and_true]
    rw [decide_eq_false_iff_not]
    intro hle
    have habs1 : |(k : ℚ) - ((k + 1 : ℕ) : ℚ)| = 1 := by
      push_cast
      rw [show (k : ℚ) - ((k : ℚ) + 1) = -1 by ring]
      norm_num
    have habs2 : |((k + 1 : ℕ) : ℚ)| = (k : ℚ) + 1 := by
      push_cast
      rw [abs_of_nonneg (by positivity)]
    rw [habs1, habs2] at hle
    have hk9 : (k : ℚ) ≤ 9 := by exact_mod_cast Nat.lt_succ_iff.1 hk
    linarith
  have h := (do_fit_x_loop_spec (fun _ n => n + 1) (fun n : ℕ => [(n : ℚ)]) 0).2.2 hall
  exact ⟨by rw [h.1, hn 10], h.2⟩
